import Mathlib

/-!
Verification development for the wave code-generation backend
(`iree/turbine/kernel/wave/codegen.py`).

The development shallowly embeds the parts of the backend that the
properties below are about:

* the symbolic index compiler `gen_sympy_index` and its helpers
  (`_broadcast`, `muli_fold`, `_add`, `_mul`, `_floor`, `_ceiling`,
  `_group_rationals`, `_apply`), with MLIR `arith` instructions given
  their integer semantics (`addi` is addition, `muli` multiplication,
  `divsi` truncating signed division, `ceildivsi` signed ceiling
  division, `remsi` signed truncated remainder, `cmpi slt` signed
  less-than, `andi` bitwise and) and values denoted by scalars or
  vectors of integers tagged with their element type;
* the lowered-value cache of `WaveEmitter` (`_node_values`,
  `lookup_node_values`, `bind_node_proxy`), modelling Python class
  attribute and dict-assignment semantics;
* the memory-access synthesizer (`_build_mask`,
  `_construct_gather_scatter_indices`, `_compute_offset`) and the
  mapping-identity requirements of `handle_read` / `handle_write`;
* the shuffle lowering `handle_shuffle` at the level of the emitted
  instruction sequence;
* the reduction lowering `handle_reduction` / `handle_get_result` at
  the level of the emitted `scf.for` loop structure and the cache.

Failure paths (`CodegenError`, `ValidationError`, failing `assert`
statements, `NotImplementedError`, Python `KeyError`/`IndexError`)
are modelled with `Except` and one error label per point of
detection, named after the spec taxonomy.
-/

/-- Error taxonomy of the emission pass (spec section 7).  Each label
stands for one synchronous failure point of the Python source
(`CodegenError`, `ValidationError`, a failing `assert`,
`NotImplementedError`, or an uncaught Python exception). -/
inductive Err where
  | unhandledOperation
  | malformedArguments
  | unknownSymbol
  | unsupportedExpression
  | rationalNotSupported
  | broadcastMismatch
  | typeMismatch
  | unsupportedMapping
  | unsupportedShuffleShape
  | unsupportedDynamicParameter
  | missingHardwareConstraint
  | missingTripCount
  | malformedExpression
  | invalidIR
deriving DecidableEq, Repr

/-- Element types occurring in the index compiler: `index` for address
arithmetic and `i1` for comparisons and masks. -/
inductive ElemTy where
  | index
  | i1
deriving DecidableEq, Repr

/-- A concrete (non-rational) SSA value of the index compiler: a scalar
or a 1-D vector of integers, tagged with its element type.  This is the
denotation of an MLIR `Value` appearing in `gen_sympy_index`. -/
inductive CVal where
  | s (t : ElemTy) (v : Int)
  | v (t : ElemTy) (vs : List Int)
deriving DecidableEq, Repr

/-- The MLIR type of a `CVal` (`Value.type` in the source): scalar
element type, or vector shape plus element type. -/
inductive IRTy0 where
  | scalarT (t : ElemTy)
  | vecT (n : Nat) (t : ElemTy)
deriving DecidableEq, Repr

def CVal.irType : CVal → IRTy0
  | .s t _ => .scalarT t
  | .v t vs => .vecT vs.length t

/-- `_check_vec_scalar(a, b)` from `gen_sympy_index`: `a` is a vector
and `b` a scalar of `a`'s element type. -/
def check_vec_scalar (a b : CVal) : Bool :=
  match a, b with
  | .v t _, .s t2 _ => t = t2
  | _, _ => false

/-- `_broadcast(a, b)` from `gen_sympy_index`: equal types pass through
unchanged; a vector paired with a scalar of matching element type
splats the scalar (`vector_d.splat`) to the vector's shape; anything
else raises `CodegenError` (broadcast mismatch). -/
def broadcastCV (a b : CVal) : Except Err (CVal × CVal) :=
  if a.irType = b.irType then .ok (a, b)
  else if check_vec_scalar a b then
    match a, b with
    | .v t vs, .s _ x => .ok (a, .v t (List.replicate vs.length x))
    | _, _ => .error .broadcastMismatch
  else if check_vec_scalar b a then
    match a, b with
    | .s _ x, .v t vs => .ok (.v t (List.replicate vs.length x), b)
    | _, _ => .error .broadcastMismatch
  else .error .broadcastMismatch

/-- Elementwise lifting of an integer operation to `CVal`s of equal
shape (the shapes were already equalized by `_broadcast`); `rt` gives
the result element type from the operand type (identity for
arithmetic, constantly `i1` for `cmpi`).  The mixed scalar/vector case
is unreachable after `_broadcast` and returns a dummy scalar. -/
def binCV (f : Int → Int → Int) (rt : ElemTy → ElemTy) : CVal → CVal → CVal
  | .s t x, .s _ y => .s (rt t) (f x y)
  | .v t xs, .v _ ys => .v (rt t) (List.zipWith f xs ys)
  | _, _ => .s .index 0

/-- `arith_d.addi`. -/
def addiCV : CVal → CVal → CVal := binCV (fun a b => a + b) id

/-- `arith_d.muli`. -/
def muliCV : CVal → CVal → CVal := binCV (fun a b => a * b) id

/-- `arith_d.remsi`: signed remainder with the sign of the dividend
(truncated-division semantics), i.e. `Int.tmod`. -/
def remsiCV : CVal → CVal → CVal := binCV Int.tmod id

/-- `arith_d.divsi`: signed division truncating toward zero,
i.e. `Int.tdiv`. -/
def divsiCV : CVal → CVal → CVal := binCV Int.tdiv id

/-- `arith_d.ceildivsi`: signed division rounding toward positive
infinity. -/
def ceildivsiCV : CVal → CVal → CVal := binCV (fun a b => -((-a).fdiv b)) id

/-- `arith_d.cmpi` with predicate `slt`: result element type `i1`,
encoded as the integers 0 and 1. -/
def cmpiSltCV : CVal → CVal → CVal :=
  binCV (fun a b => if a < b then 1 else 0) (fun _ => .i1)

/-- `arith_d.andi` (bitwise and; on `i1` this is boolean and). -/
def andiCV : CVal → CVal → CVal := binCV Int.land id

/-- `get_const_val(arg)` from `gen_sympy_index`: the integer behind a
scalar constant.  In the source this inspects whether the SSA value is
an `arith.constant` with an `IntegerAttr`; vector constants carry a
`DenseElementsAttr` and yield `None`.  In this denotation every scalar
is transparent; the only use site is `muli_fold`, where folding a
multiplication by a dynamic value that happens to equal 1 is
denotationally the identity, so the denotation is unchanged. -/
def get_const_val : CVal → Option Int
  | .s _ x => some x
  | .v _ _ => none

/-- `muli_fold(lhs, rhs)`: elide multiplication by the constant 1,
otherwise emit `arith_d.muli`. -/
def muli_fold (a b : CVal) : CVal :=
  if get_const_val a = some 1 then b
  else if get_const_val b = some 1 then a
  else muliCV a b

/-- An operand value of the index compiler: either a concrete value or
a deferred rational `_Rational(numerator, denominator)` kept undivided
until `floor`/`ceiling` concretizes it. -/
inductive Val where
  | c (x : CVal)
  | rat (n d : CVal)
deriving DecidableEq, Repr

def Val.isRat : Val → Bool
  | .rat _ _ => true
  | .c _ => false

/-- `_add(lhs, rhs)` from `gen_sympy_index`: addition with
cross-multiplication folding of deferred rationals,
`x + (a/b) = (x*b + a)/b`. -/
def vadd (lhs rhs : Val) : Except Err Val :=
  match lhs, rhs with
  | .rat n d, .c x => do
      let (p, q) ← broadcastCV d x
      let num0 := muli_fold p q
      let (p2, q2) ← broadcastCV num0 n
      .ok (.rat (addiCV p2 q2) d)
  | .c x, .rat n d => do
      let (p, q) ← broadcastCV x d
      let num0 := muli_fold p q
      let (p2, q2) ← broadcastCV num0 n
      .ok (.rat (addiCV p2 q2) d)
  | .rat n1 d1, .rat n2 d2 => do
      let (p, q) ← broadcastCV n1 d2
      let lnum := muli_fold p q
      let (p2, q2) ← broadcastCV n2 d1
      let rnum := muli_fold p2 q2
      let (p3, q3) ← broadcastCV lnum rnum
      let num := addiCV p3 q3
      let (p4, q4) ← broadcastCV d1 d2
      .ok (.rat num (muli_fold p4 q4))
  | .c x, .c y => do
      let (p, q) ← broadcastCV x y
      .ok (.c (addiCV p q))

/-- `_mul(lhs, rhs)` from `gen_sympy_index`: multiplication with
cross-multiplication folding of deferred rationals,
`x * (a/b) = (x*a)/b`. -/
def vmul (lhs rhs : Val) : Except Err Val :=
  match lhs, rhs with
  | .rat n d, .c x => do
      let (p, q) ← broadcastCV n x
      .ok (.rat (muli_fold p q) d)
  | .c x, .rat n d => do
      let (p, q) ← broadcastCV x n
      .ok (.rat (muli_fold p q) d)
  | .rat n1 d1, .rat n2 d2 => do
      let (p, q) ← broadcastCV n1 n2
      let (p2, q2) ← broadcastCV d1 d2
      .ok (.rat (muli_fold p q) (muli_fold p2 q2))
  | .c x, .c y => do
      let (p, q) ← broadcastCV x y
      .ok (.c (muli_fold p q))

/-- `_floor(value)`: concretize a rational with `arith_d.divsi`
(truncating signed division); a no-op on concrete values. -/
def vfloor (v : Val) : Except Err Val :=
  match v with
  | .rat n d => do
      let (p, q) ← broadcastCV n d
      .ok (.c (divsiCV p q))
  | .c _ => .ok v

/-- `_ceiling(value)`: concretize a rational with `arith_d.ceildivsi`;
a no-op on concrete values. -/
def vceil (v : Val) : Except Err Val :=
  match v with
  | .rat n d => do
      let (p, q) ← broadcastCV n d
      .ok (.c (ceildivsiCV p q))
  | .c _ => .ok v

/-- `_group_rationals(stack, args)` from `gen_sympy_index`: the operand
values are popped off the evaluation stack (hence in reverse push
order) and partitioned into non-rationals followed by rationals, so
that all non-rational operands are combined first.  The optional
re-sort by induction-variable dependency count is a pure instruction
scheduling hint (it permutes the combination order of already-computed
operands) and is not part of this value-level denotation. -/
def groupRationals (vals : List Val) : List Val :=
  let popped := vals.reverse
  popped.filter (fun v => !v.isRat) ++ popped.filter Val.isRat

/-- `_apply(args, func)`: left fold of the combinator over the grouped
operands; `assert len(args) > 0` in the source. -/
def applyFold (f : Val → Val → Except Err Val) : List Val → Except Err Val
  | [] => .error .malformedExpression
  | v :: rest => rest.foldlM f v

/-- The lane-offset vector `0, 1, ..., n-1` denoted by
`idxc.iota(n)`. -/
def iotaVec (n : Nat) : List Int :=
  (List.range n).map Int.ofNat

/-- The self-owned expression variant walked by the index compiler
(spec sections 3 and 9): the sympy node kinds that `gen_sympy_index`
matches on.  `Add`/`Mul` are n-ary as in sympy; `iota` is the
lane-offset vector `idxc.iota(k)`.

Modelled from the spec: `IndexingContext.iota` itself is outside the
embedded sources; per the spec ("lane offsets [0..k)") it denotes the
constant vector `0, 1, ..., k-1`, which `gen_sympy_index` materializes
through the tuple branch of `_get_const` as one dense vector
constant. -/
inductive IExpr where
  | sym (s : Nat)
  | intC (n : Int)
  | addE (args : List IExpr)
  | mulE (args : List IExpr)
  | modE (a b : IExpr)
  | floorE (a : IExpr)
  | ceilE (a : IExpr)
  | ratC (p q : Int)
  | ltE (a b : IExpr)
  | andE (a b : IExpr)
  | boolC (b : Bool)
  | iota (n : Nat)

mutual

/-- Post-order evaluation of one expression node of `gen_sympy_index`.
The environment merges the two symbol sources of the source code: a
compile-time value from `idxc.get_val` and a runtime binding from
`dynamics` both yield a `CVal`; an unresolved symbol raises
`CodegenError` (`UnknownSymbol`).  The explicit operand stack of the
source becomes structural recursion; the final single-result check of
`gen_sympy_index` is applied separately by `gen_sympy_index` below. -/
def evalE (env : Nat → Option CVal) : IExpr → Except Err Val
  | .sym s =>
      match env s with
      | some v => .ok (.c v)
      | none => .error .unknownSymbol
  | .intC n => .ok (.c (.s .index n))
  | .addE args => do
      let vs ← evalArgs env args
      applyFold vadd (groupRationals vs)
  | .mulE args => do
      let vs ← evalArgs env args
      applyFold vmul (groupRationals vs)
  | .modE a b => do
      let lv ← evalE env a
      let rv ← evalE env b
      match lv, rv with
      | .c x, .c y => do
          let (p, q) ← broadcastCV x y
          .ok (.c (remsiCV p q))
      | _, _ => .error .rationalNotSupported
  | .floorE a => do
      let v ← evalE env a
      vfloor v
  | .ceilE a => do
      let v ← evalE env a
      vceil v
  | .ratC p q => .ok (.rat (.s .index p) (.s .index q))
  | .ltE a b => do
      let lv ← evalE env a
      let rv ← evalE env b
      match lv, rv with
      | .c x, .c y => do
          let (p, q) ← broadcastCV x y
          .ok (.c (cmpiSltCV p q))
      | _, _ => .error .rationalNotSupported
  | .andE a b => do
      let lv ← evalE env a
      let rv ← evalE env b
      match lv, rv with
      | .c x, .c y => do
          let (p, q) ← broadcastCV x y
          .ok (.c (andiCV p q))
      | _, _ => .error .rationalNotSupported
  | .boolC b => .ok (.c (.s .i1 (if b then 1 else 0)))
  | .iota n => .ok (.c (.v .index (iotaVec n)))

/-- Evaluation of an operand list (the values pushed on the stack, in
push order). -/
def evalArgs (env : Nat → Option CVal) : List IExpr → Except Err (List Val)
  | [] => .ok []
  | e :: es => do
      let v ← evalE env e
      let vs ← evalArgs env es
      .ok (v :: vs)

end

/-- `gen_sympy_index(dynamics, expr)`: evaluate the expression and
enforce that exactly one concrete (non-rational) value results, else
`CodegenError` (`MalformedExpression`). -/
def gen_sympy_index (env : Nat → Option CVal) (e : IExpr) : Except Err CVal := do
  match ← evalE env e with
  | .c v => .ok v
  | .rat _ _ => .error .malformedExpression

/-! ## Lowered-value cache and emitter state (`WaveEmitter`) -/

/-- The lowered-value cache `_node_values`: a Python dict from graph
nodes to lists of lowered values, modelled as an insertion-ordered
association list with unique keys.  Nodes are identified by index
(`α` is the value type). -/
def NodeCache (α : Type) : Type := List (Nat × List α)

/-- Dict lookup `d.get(n)`. -/
def cacheLookup {α : Type} (c : NodeCache α) (n : Nat) : Option (List α) :=
  (c.find? (fun p => p.1 = n)).map Prod.snd

/-- Python dict item assignment `d[n] = vs`: replace in place if the
key exists, else append (insertion order preserved). -/
def dictSet {α : Type} (c : NodeCache α) (n : Nat) (vs : List α) : NodeCache α :=
  match c with
  | [] => [(n, vs)]
  | p :: rest => if p.1 = n then (n, vs) :: rest else p :: dictSet rest n vs

/-- The class attributes of the Python class `WaveEmitter`.
`_node_values: ClassVar[dict[fx.Node, List[IRProxyValue]]] = {}` is a
class variable: the dict is created once when the class object is
created and is shared by every instance; `self._node_values[node] = v`
mutates that shared dict. -/
structure WaveEmitterClass (α : Type) where
  node_values : NodeCache α

/-- Creation of the `WaveEmitter` class object: `_node_values`
initialized to the empty dict, once per process. -/
def waveEmitterClassInit (α : Type) : WaveEmitterClass α := ⟨[]⟩

/-- Constructing a `WaveEmitter` instance (dataclass `__init__` plus
`__post_init__`): only the instance attribute `ip` is set; the class
attribute `_node_values` is left untouched. -/
def newWaveEmitter {α : Type} (cls : WaveEmitterClass α) : WaveEmitterClass α :=
  cls

/-- `WaveEmitter.bind_node_proxy(node, proxy)`:
`self._node_values[node] = [proxy]` — an unchecked dict write. -/
def bind_node_proxy {α : Type} (cls : WaveEmitterClass α) (n : Nat) (proxy : α) :
    WaveEmitterClass α :=
  ⟨dictSet cls.node_values n [proxy]⟩

/-- `WaveEmitter.bind_node_proxies(node, proxies)`:
`self._node_values[node] = proxies`. -/
def bind_node_proxies {α : Type} (cls : WaveEmitterClass α) (n : Nat)
    (proxies : List α) : WaveEmitterClass α :=
  ⟨dictSet cls.node_values n proxies⟩

/-! ## Memory access synthesizer -/

/-- Association-list lookup on an index dict (`index[dim]`). -/
def lookupA {α : Type} (l : List (Nat × α)) (d : Nat) : Option α :=
  (l.find? (fun p => p.1 = d)).map Prod.snd

/-- The final shape fix of `_build_mask`: if the generated mask is not
already of type `vector<k x i1>` it is splat (`vector_d.splat`) to
that type.  Splatting requires a scalar `i1` source; any other source
would produce IR that fails verification (unreachable from
`_build_mask`'s expressions). -/
def maskToVec (k : Nat) (m : CVal) : Except Err CVal :=
  if m.irType = .vecT k .i1 then .ok m
  else
    match m with
    | .s .i1 x => .ok (.v .i1 (List.replicate k x))
    | _ => .error .invalidIR

/-- `_build_mask(emitter, index, elements_per_thread)`.

The external bounds-lookup utility `find_index_bounds` (spec section
6) is passed in as its result `bounds`: `none` when no dimension is
bounded (the source returns no mask at all), otherwise the list of
bounded dimensions.  `index` is the node's per-dimension start
expressions in dict order; the start expression of the last (fastest
varying) dimension gets `idxc.iota(k)` added, then the conjunction
`new_index[dim] < dim` over the bounded dimensions is lowered by
`gen_sympy_index` and splat to `vector<k x i1>` if scalar.

Python failure points kept as errors: an empty index dict
(`tuple(index.keys())[-1]` raises `IndexError`), an empty bounds list
(`functools.reduce` on an empty sequence raises `TypeError`), and a
bounded dimension absent from the index dict (`KeyError`). -/
def build_mask (env : Nat → Option CVal) (index : List (Nat × IExpr))
    (bounds : Option (List Nat)) (k : Nat) : Except Err (Option CVal) :=
  match bounds with
  | none => .ok none
  | some bs =>
    match index.getLast? with
    | none => .error .invalidIR
    | some last =>
      let lastDim := last.1
      let newIndex : List (Nat × IExpr) :=
        index.map (fun p =>
          if p.1 = lastDim then (p.1, IExpr.addE [p.2, IExpr.iota k]) else p)
      let conj : Nat → Option IExpr := fun d =>
        (lookupA newIndex d).map (fun e => IExpr.ltE e (.sym d))
      match bs with
      | [] => .error .invalidIR
      | b :: rest =>
        match conj b, rest.mapM conj with
        | some c0, some cs => do
            let m ← gen_sympy_index env (cs.foldl (fun acc c => IExpr.andE acc c) c0)
            let mv ← maskToVec k m
            .ok (some mv)
        | _, _ => .error .invalidIR

/-- The load/store selection shared by `handle_read` (lines 706-718)
and `handle_write` (lines 794-800) on the identity-mapping path: a
missing mask, or a destination in the exactly-sized shared address
space, selects the unmasked vectorized access. -/
inductive MemAccess where
  | unmasked
  | masked
deriving DecidableEq, Repr

def memory_access_kind (mask : Option CVal) (isSharedAddressSpace : Bool) :
    MemAccess :=
  if mask.isNone || isSharedAddressSpace then .unmasked else .masked

/-- The per-lane mask predicate as the specification states it: lane
`i` is in bounds iff for every bounded dimension
`start + lane_offset < declared_size`, where the lane offset is `i`
on the innermost (last) dimension and 0 elsewhere.  Stated from the
spec's words, to be compared against `build_mask`. -/
def maskLaneSpec (starts sizes : Nat → Int) (lastDim : Nat) (bs : List Nat)
    (i : Nat) : Bool :=
  bs.all (fun d => decide (starts d + (if d = lastDim then (i : Int) else 0) < sizes d))

/-- The intermediate value of `_build_mask`'s bounds conjunction after
the dimensions `ds` have been folded in: a `vector<k x i1>` of
per-lane predicates once the innermost dimension's vector comparison
has entered the conjunction, and a scalar `i1` before that.  Used to
state and prove the correspondence between `_build_mask` and
`maskLaneSpec`. -/
def maskAccCVal (starts sizes : Nat → Int) (lastDim k : Nat) (ds : List Nat) :
    CVal :=
  if lastDim ∈ ds then
    .v .i1 ((List.range k).map
      (fun i : Nat => if maskLaneSpec starts sizes lastDim ds i then (1 : Int) else 0))
  else
    .s .i1 (if maskLaneSpec starts sizes lastDim ds 0 then (1 : Int) else 0)

/-! ## Index-mapping requirements of read/write lowering -/

/-- The part of the external `IndexMapping` abstraction that the
lowering consults: the identity predicate of the whole mapping and of
each side (spec section 6). -/
structure IndexMappingM where
  is_identity : Bool
  input_identity : Bool
  output_identity : Bool
deriving DecidableEq, Repr

/-- The mapping-side requirement checked at the top of
`_construct_gather_scatter_indices` (codegen.py lines 588-597):
for a read (`is_read`) the source asserts
`mapping.is_output_identity()`, for a write it asserts
`mapping.is_input_identity()`; a failing assert aborts the pass
(`UnsupportedMapping`). -/
def construct_gather_scatter_mapping_check (m : IndexMappingM) (is_read : Bool) :
    Except Err Unit :=
  if is_read then
    if m.output_identity then .ok () else .error .unsupportedMapping
  else
    if m.input_identity then .ok () else .error .unsupportedMapping

/-- Which access path a read or write is lowered to. -/
inductive AccessPath where
  | vectorAccess
  | gatherScatter
deriving DecidableEq, Repr

/-- Path selection of `handle_read`: an absent or identity mapping
(with matching input shape) lowers to the contiguous vector path;
otherwise the gather path is taken after the mapping-side check of
`_construct_gather_scatter_indices` with `is_read=True`.
`shapes_match` stands for `_is_identity_mapping`'s comparison of the
mapping's input shape with the source tensor's symbolic shape. -/
def handle_read_mapping (mapping : Option IndexMappingM) (shapes_match : Bool) :
    Except Err AccessPath :=
  match mapping with
  | none => .ok .vectorAccess
  | some m =>
    if m.is_identity && shapes_match then .ok .vectorAccess
    else do
      construct_gather_scatter_mapping_check m true
      .ok .gatherScatter

/-- Path selection of `handle_write`: an absent or identity mapping
(with matching input and output shapes) lowers to the contiguous
vector path; otherwise `handle_write` first asserts that the
register's shape equals the mapping's input shape ("non-identity
input mapping is not supported yet", lines 802-804), then the
mapping-side check of `_construct_gather_scatter_indices` runs with
`is_read=False`. -/
def handle_write_mapping (mapping : Option IndexMappingM)
    (shapes_match input_shape_eq : Bool) : Except Err AccessPath :=
  match mapping with
  | none => .ok .vectorAccess
  | some m =>
    if m.is_identity && shapes_match then .ok .vectorAccess
    else if !input_shape_eq then .error .unsupportedMapping
    else do
      construct_gather_scatter_mapping_check m false
      .ok .gatherScatter

/-- The requirement as the claim states it: identity on the input side
for reads and on the output side for writes.  Stated from the spec's
words, to be compared against `construct_gather_scatter_mapping_check`. -/
def claim_mapping_check (m : IndexMappingM) (is_read : Bool) : Except Err Unit :=
  if is_read then
    if m.input_identity then .ok () else .error .unsupportedMapping
  else
    if m.output_identity then .ok () else .error .unsupportedMapping

/-! ## Gather/scatter offset synthesis (`_construct_gather_scatter_indices`) -/

/-- `_compute_offset(indices, strides)`:
`sum(i * s for i, s in zip(indices, strides))`. -/
def compute_offset (indices strides : List Int) : Int :=
  (List.zipWith (fun i s => i * s) indices strides).sum

/-- The guard of the offsets-vector branch in
`_construct_gather_scatter_indices` (line 652):
`if need_dynamic_offsets or True:` — the constant-vector branch is the
`else`. -/
def need_dynamic_branch (need_dynamic_offsets : Bool) : Bool :=
  need_dynamic_offsets || true

inductive OffsetsPath where
  | dynamicPath
  | constantPath
deriving DecidableEq, Repr

/-- Branch selection on the offsets vector: the general
dynamic-instruction path versus the constant-offset-vector path. -/
def select_offsets_path (need_dynamic_offsets : Bool) : OffsetsPath :=
  if need_dynamic_branch need_dynamic_offsets then .dynamicPath else .constantPath

/-- The lane offsets of the constant path: lane `i` carries
`_compute_offset(indices_i, strides) - start_indices_offset`, relative
to the non-zero gather start indices (`lin i` is the linear address
`_compute_offset(indices_i, strides)` of lane `i` after iterator
substitution). -/
def const_path_lane_offset (lin : Nat → Int) (startIndices strides : List Int)
    (i : Nat) : Int :=
  lin i - compute_offset startIndices strides

/-- The start indices of the dynamic path:
`result_index = {key: 0 for key in symbolc_shape}` — all zeros. -/
def dynamic_path_start (symbolicShape : List Nat) : List Int :=
  symbolicShape.map (fun _ => 0)

/-- The effective linear address a gather/scatter accesses on one
lane: the linear form of the start indices plus the lane's entry of
the offsets vector. -/
def gather_effective (startLinear laneOffset : Int) : Int :=
  startLinear + laneOffset

/-! ## Shuffle lowering (`handle_shuffle`) -/

/-- Scalar element types as `handle_shuffle` distinguishes them:
floating point or integer-like, with a bit width. -/
inductive ScalarTy where
  | float (width : Nat)
  | intT (width : Nat)
deriving DecidableEq, Repr

def ScalarTy.isFloat : ScalarTy → Bool
  | .float _ => true
  | .intT _ => false

def ScalarTy.width : ScalarTy → Nat
  | .float w => w
  | .intT w => w

/-- The operand type of a shuffle: scalar, or vector with a static
shape. -/
inductive SrcTy where
  | scalarS (t : ScalarTy)
  | vecS (shape : List Nat) (t : ScalarTy)
deriving DecidableEq, Repr

/-- One instruction of the shuffle lowering sequence. -/
inductive ShOp where
  | extractOp
  | extfTo32
  | shuffleXor (offset width : Int)
  | truncfTo (t : ScalarTy)
  | broadcastTo (t : SrcTy)
deriving DecidableEq, Repr

/-- `handle_shuffle(emitter, node)` at the level of the emitted
instruction sequence.  `offset`/`width` are `some` exactly when the
node arguments are Python `int` literals (`isinstance(offset, int)`);
otherwise `NotImplementedError` ("Non-const width or offset...").  A
non-vector operand, a vector with more than one element
(`math.prod(shape) != 1`), a non-float element type, and an element
wider than 32 bits each abort the lowering (collapsed into
`UnsupportedShuffleShape` by the spec taxonomy).  On success the
sequence is: scalarize (`vector_d.extract`), widen to `f32` with
`arith_d.extf` when narrower than 32 bits, `gpu_d.shuffle` in XOR
mode, truncate back (`arith_d.truncf`) when the shuffled type differs
from the original element type, and re-broadcast
(`vector_d.broadcast`) to the original vector type. -/
def handle_shuffle (offset width : Option Int) (srcTy : SrcTy) :
    Except Err (List ShOp) :=
  match offset, width with
  | some o, some w =>
    match srcTy with
    | .scalarS _ => .error .unsupportedShuffleShape
    | .vecS shape t =>
      if shape.prod = 1 then
        if t.isFloat then
          if t.width ≤ 32 then
            let padOps := if t.width < 32 then [ShOp.extfTo32] else []
            let shuffledTy : ScalarTy := if t.width < 32 then .float 32 else t
            let truncOps := if t = shuffledTy then [] else [ShOp.truncfTo t]
            .ok ([ShOp.extractOp] ++ padOps ++ [ShOp.shuffleXor o w] ++ truncOps
              ++ [ShOp.broadcastTo srcTy])
          else .error .unsupportedShuffleShape
        else .error .unsupportedShuffleShape
      else .error .unsupportedShuffleShape
  | _, _ => .error .unsupportedDynamicParameter

/-! ## Reduction lowering (`handle_reduction`, `handle_get_result`) -/

/-- A symbolic IR value of the dispatch level: a value resolved
through the external reference-resolution hook
(`root_sig.resolve_by_reference`), or the `i`-th result of an emitted
`scf.for` loop. -/
inductive IRV where
  | resolved (n : Nat)
  | forResult (loopId : Nat) (idx : Nat)
deriving DecidableEq, Repr

/-- `OpResult.owner` restricted to what `handle_get_result` uses: the
`scf.for` operation a result belongs to. -/
def IRV.owner : IRV → Option Nat
  | .forResult lid _ => some lid
  | .resolved _ => none

/-- The record of one emitted `scf.ForOp`: bounds, step and the number
of carried loop-state slots (`iter_args`). -/
structure ForOpRec where
  loopId : Nat
  lowerBound : Int
  upperBound : Int
  step : Int
  numIterArgs : Nat
deriving DecidableEq, Repr

/-- `WaveEmitter.lookup_node_values(node)`: the cached list, or the
single value obtained from the external reference-resolution hook when
the node was never bound by a handler. -/
def lookup_node_values (cache : NodeCache IRV) (n : Nat) : List IRV :=
  (cacheLookup cache n).getD [IRV.resolved n]

/-- `handle_reduction(emitter, node)` at the level of the emitted loop
structure.  `count` is `node.count`, the statically solved trip count
attached upstream; when it is absent the lowering fails
(`MissingTripCount`; in the source the attribute access itself raises,
and the explicit `CodegenError` guard `if not step` can never fire
because `step` is the constant 1).  Otherwise one `scf.ForOp` is
emitted with `start = 0`, `end = count`, `step = 1` and the flattened
initial carried values as loop state, the subgraph body is emitted
inside it (its per-iteration structure is not modelled here), and the
reduction node is bound to the loop's final results, one per carried
slot (`bind_node_proxies(node, forOp.results_)`). -/
def handle_reduction (count : Option Int) (flatInitArgs : List IRV) (loopId : Nat)
    (loops : List ForOpRec) (cache : NodeCache IRV) (node : Nat) :
    Except Err (List ForOpRec × NodeCache IRV) :=
  match count with
  | none => .error .missingTripCount
  | some c =>
    let forOp : ForOpRec := ⟨loopId, 0, c, 1, flatInitArgs.length⟩
    let results := (List.range flatInitArgs.length).map (IRV.forResult loopId)
    .ok (loops ++ [forOp], dictSet cache node results)

/-- `handle_get_result(emitter, node)`: look up the reduction node's
first lowered value, take its owning `scf.for` operation, and bind the
result node to `for_op.results[res_idx]` (a Python `IndexError` when
the index is out of the loop's result range, and an attribute failure
when the first value is not an operation result). -/
def handle_get_result (loops : List ForOpRec) (cache : NodeCache IRV)
    (value : Nat) (res_idx : Nat) (node : Nat) : Except Err (NodeCache IRV) :=
  match lookup_node_values cache value with
  | v :: _ =>
    match v.owner with
    | some lid =>
      match loops.find? (fun f => f.loopId = lid) with
      | some forOp =>
        if res_idx < forOp.numIterArgs then
          .ok (dictSet cache node [IRV.forResult lid res_idx])
        else .error .invalidIR
      | none => .error .invalidIR
    | none => .error .invalidIR
  | [] => .error .invalidIR

/-! ## Helper lemmas -/

/-- Writing a key into the dict makes it readable back (Python dict
semantics of `d[n] = vs` followed by `d[n]`). -/
theorem cacheLookup_dictSet_self {α : Type} (c : NodeCache α) (n : Nat)
    (vs : List α) : cacheLookup (dictSet c n vs) n = some vs := by
  induction c with
  | nil => simp [dictSet, cacheLookup, List.find?]
  | cons p rest ih =>
    by_cases h : p.1 = n
    · simp [dictSet, h, cacheLookup, List.find?]
    · simpa [dictSet, h, cacheLookup, List.find?] using ih

/-- Elementwise combination against a splat vector is a map. -/
theorem zipWith_replicate_right_eq_map (f : Int → Int → Int) (vs : List Int)
    (x : Int) :
    List.zipWith f vs (List.replicate vs.length x) = vs.map (fun e => f e x) := by
  induction vs with
  | nil => rfl
  | cons a l ih => simp [List.replicate_succ, ih]

/-- A truncated remainder of a non-positive dividend is non-positive
(the sign of `remsi` follows the dividend). -/
theorem int_tmod_nonpos_of_nonpos (x y : Int) (hx : x ≤ 0) : Int.tmod x y ≤ 0 := by
  cases x with
  | ofNat m =>
    have hm : m = 0 := by
      have : Int.ofNat m = (m : Int) := rfl
      omega
    subst hm
    have : Int.tmod (Int.ofNat 0) y = 0 := Int.zero_tmod y
    omega
  | negSucc m =>
    cases y with
    | ofNat n =>
      show -(Int.ofNat (m.succ % n)) ≤ 0
      have : Int.ofNat (m.succ % n) = ((m.succ % n : Nat) : Int) := rfl
      omega
    | negSucc n =>
      show -(Int.ofNat (m.succ % n.succ)) ≤ 0
      have : Int.ofNat (m.succ % n.succ) = ((m.succ % n.succ : Nat) : Int) := rfl
      omega

/-- `_compute_offset` of all-zero indices vanishes. -/
theorem compute_offset_zeros (shape : List Nat) (strides : List Int) :
    compute_offset (dynamic_path_start shape) strides = 0 := by
  induction shape generalizing strides with
  | nil => simp [compute_offset, dynamic_path_start]
  | cons a l ih =>
    cases strides with
    | nil => simp [compute_offset, dynamic_path_start]
    | cons s rest =>
      have := ih rest
      simp_all [compute_offset, dynamic_path_start]

/-! ## Claims -/

/-- Claim C3: the symbolic index compiler folds deferred rationals by
cross-multiplication, so for all integers `a b c d` with `c` and `d`
nonzero and every assignment of runtime symbol bindings, lowering
`a + b * (c / d)` yields the same value (and the same overall lowering
result) as lowering the pre-simplified `(a * d + b * c) / d`. -/
theorem c3_rational_cross_multiplication (env : Nat → Option CVal) (a b c d : Int)
    (hc : c ≠ 0) (hd : d ≠ 0) :
    evalE env (.addE [.intC a, .mulE [.intC b, .ratC c d]]) =
      evalE env (.ratC (a * d + b * c) d)
    ∧ gen_sympy_index env (.addE [.intC a, .mulE [.intC b, .ratC c d]]) =
        gen_sympy_index env (.ratC (a * d + b * c) d) := by
  have h : evalE env (.addE [.intC a, .mulE [.intC b, .ratC c d]]) =
      evalE env (.ratC (a * d + b * c) d) := by
    by_cases hb : b = 1 <;> by_cases hc1 : c = 1 <;> by_cases ha : a = 1 <;>
      by_cases hd1 : d = 1 <;>
      simp [evalE, evalArgs, groupRationals, applyFold, Val.isRat,
        vadd, vmul, broadcastCV, muli_fold, get_const_val, addiCV, muliCV, binCV,
        CVal.irType, check_vec_scalar, bind, Except.bind, pure, Except.pure,
        hb, hc1, ha, hd1]
  exact ⟨h, by rw [gen_sympy_index, gen_sympy_index, h]⟩

/-- Witness for C3 at `a = 2, b = 3, c = 4, d = 5`. -/
theorem c3_rational_cross_multiplication_witness :
    (4 : Int) ≠ 0 ∧ (5 : Int) ≠ 0
    ∧ evalE (fun _ => none) (.addE [.intC 2, .mulE [.intC 3, .ratC 4 5]]) =
        evalE (fun _ => none) (.ratC (2 * 5 + 3 * 4) 5) :=
  ⟨by decide, by decide,
    (c3_rational_cross_multiplication (fun _ => none) 2 3 4 5 (by decide)
      (by decide)).1⟩

/-- Claim C10: a `Mod` expression with both operands concrete lowers
to `arith.remsi`, the signed truncated remainder: the result follows
truncated-division semantics, so a negative left operand yields a
zero-or-negative result. -/
theorem c10_mod_is_truncated_remainder (env : Nat → Option CVal) (e1 e2 : IExpr)
    (x y : Int)
    (h1 : evalE env e1 = .ok (.c (.s .index x)))
    (h2 : evalE env e2 = .ok (.c (.s .index y))) :
    evalE env (.modE e1 e2) = .ok (.c (.s .index (Int.tmod x y)))
    ∧ (x < 0 → Int.tmod x y ≤ 0) := by
  constructor
  · simp [evalE, h1, h2, broadcastCV, CVal.irType, remsiCV, binCV, bind,
      Except.bind, pure, Except.pure]
  · intro hx
    exact int_tmod_nonpos_of_nonpos x y (le_of_lt hx)

/-- Witness for C10 at `(-7) mod 3`, where the truncated remainder is
`-1` while the mathematical modulus would be `2`. -/
theorem c10_mod_is_truncated_remainder_witness :
    evalE (fun _ => none) (.modE (.intC (-7)) (.intC 3)) =
      .ok (.c (.s .index (-1)))
    ∧ Int.tmod (-7) 3 ≤ 0
    ∧ Int.tmod (-7) 3 ≠ Int.emod (-7) 3 := by
  have h := c10_mod_is_truncated_remainder (fun _ => none) (.intC (-7)) (.intC 3)
    (-7) 3 rfl rfl
  refine ⟨h.1.trans (by rw [show Int.tmod (-7) 3 = -1 from by decide]),
    h.2 (by norm_num), by decide⟩

/-- Claim C9: in every binary combinator of the index compiler,
operands of identical type pass through `_broadcast` unchanged; a
vector combined with a scalar of matching element type splats the
scalar to the vector's width and the combinator produces a width-N
elementwise result; two vectors of differing widths fail with
`BroadcastMismatch`. -/
theorem c9_broadcast_rule (a b : CVal) (t t2 : ElemTy) (vs ws : List Int)
    (x : Int) (hab : a.irType = b.irType) (hlen : vs.length ≠ ws.length) :
    broadcastCV a b = .ok (a, b)
    ∧ broadcastCV (.v t vs) (.s t x) = .ok (.v t vs, .v t (List.replicate vs.length x))
    ∧ vadd (.c (.v t vs)) (.c (.s t x)) = .ok (.c (.v t (vs.map (fun e => e + x))))
    ∧ broadcastCV (.v t vs) (.v t2 ws) = .error .broadcastMismatch := by
  refine ⟨by simp [broadcastCV, hab], ?_, ?_, ?_⟩
  · simp [broadcastCV, CVal.irType, check_vec_scalar]
  · simp [vadd, broadcastCV, CVal.irType, check_vec_scalar, bind, Except.bind,
      addiCV, binCV, zipWith_replicate_right_eq_map]
  · simp [broadcastCV, CVal.irType, check_vec_scalar, hlen]

/-- Witness for C9: scalars of equal type pass through; a two-lane and
a three-lane vector mismatch. -/
theorem c9_broadcast_rule_witness :
    broadcastCV (.s .index 5) (.s .index 6) = .ok (.s .index 5, .s .index 6)
    ∧ broadcastCV (.v .index [1, 2]) (.v .index [1, 2, 3]) =
        .error .broadcastMismatch :=
  ⟨(c9_broadcast_rule (.s .index 5) (.s .index 6) .index .index [1, 2] [1, 2, 3] 0
      rfl (by decide)).1,
    (c9_broadcast_rule (.s .index 5) (.s .index 6) .index .index [1, 2] [1, 2, 3] 0
      rfl (by decide)).2.2.2⟩

/-- Claim C1 counterexample: the claim states that a read requires an
identity *input* mapping and a write an identity *output* mapping.  On
the code the sides are the other way around: a read whose mapping is
identity only on the output side is lowered successfully to the gather
path (the claim would require `UnsupportedMapping`), and symmetrically
a write whose mapping is identity only on the input side is lowered to
the scatter path. -/
theorem c1_mapping_sides_counterexample :
    handle_read_mapping (some ⟨false, false, true⟩) true = .ok .gatherScatter
    ∧ claim_mapping_check ⟨false, false, true⟩ true = .error .unsupportedMapping
    ∧ handle_write_mapping (some ⟨false, true, false⟩) true true = .ok .gatherScatter
    ∧ claim_mapping_check ⟨false, true, false⟩ false = .error .unsupportedMapping :=
  ⟨rfl, rfl, rfl, rfl⟩

/-- Claim C1 as amended: for every read lowered with a non-identity
index mapping the mapping must be identity on its *output* side, and
for every write on its *input* side (identity on the register side of
the transfer); a mapping that is non-identity on that required side
fails with `UnsupportedMapping`, and a mapping that is non-identity on
both sides (general bidirectional remapping) is never lowered. -/
theorem c1_mapping_sides_amended (m : IndexMappingM)
    (shapes_match input_shape_eq : Bool) (hnid : m.is_identity = false) :
    (handle_read_mapping (some m) shapes_match = .ok .gatherScatter ↔
      m.output_identity = true)
    ∧ (m.output_identity = false →
        handle_read_mapping (some m) shapes_match = .error .unsupportedMapping)
    ∧ (handle_write_mapping (some m) shapes_match true = .ok .gatherScatter ↔
        m.input_identity = true)
    ∧ (m.input_identity = false →
        handle_write_mapping (some m) shapes_match true = .error .unsupportedMapping)
    ∧ (m.input_identity = false → m.output_identity = false →
        handle_read_mapping (some m) shapes_match = .error .unsupportedMapping
        ∧ handle_write_mapping (some m) shapes_match input_shape_eq =
            .error .unsupportedMapping) := by
  rcases m with ⟨mi, min, mout⟩
  simp only at hnid
  subst hnid
  cases min <;> cases mout <;> cases input_shape_eq <;>
    simp [handle_read_mapping, handle_write_mapping,
      construct_gather_scatter_mapping_check, bind, Except.bind]

/-- Witness for C1 (amended): a mapping that is identity only on its
output side is accepted on the read path. -/
theorem c1_mapping_sides_amended_witness :
    (⟨false, false, true⟩ : IndexMappingM).is_identity = false
    ∧ handle_read_mapping (some ⟨false, false, true⟩) false = .ok .gatherScatter :=
  ⟨rfl, (c1_mapping_sides_amended ⟨false, false, true⟩ false true rfl).1.mpr rfl⟩

/-- Claim C2 counterexample: `_node_values` is a class variable shared
by every `WaveEmitter` instance, so a binding made during a first
emission pass is still visible when a second, freshly constructed
emitter starts: the lookup yields the bound value instead of the
`none` the claim requires. -/
theorem c2_cache_shared_counterexample :
    cacheLookup
        (newWaveEmitter
          (bind_node_proxy (newWaveEmitter (waveEmitterClassInit Nat)) 0 7)).node_values
        0 = some [7]
    ∧ cacheLookup
        (newWaveEmitter
          (bind_node_proxy (newWaveEmitter (waveEmitterClassInit Nat)) 0 7)).node_values
        0 ≠ none :=
  ⟨rfl, by decide⟩

/-- Claim C2 as amended: the lowered-value cache is a class attribute
shared by all emitter instances; it is created once (at class
creation) and never discarded, so a node-to-value binding created
during one emission pass remains visible when a later emitter instance
starts its pass. -/
theorem c2_cache_shared_amended {α : Type} (cls : WaveEmitterClass α) (n : Nat)
    (p : α) :
    cacheLookup (newWaveEmitter (bind_node_proxy cls n p)).node_values n =
      some [p] := by
  simpa [newWaveEmitter, bind_node_proxy] using
    cacheLookup_dictSet_self cls.node_values n [p]

/-- Claim C6 counterexample: `bind_node_proxy` on a node that already
has a cache entry does not fail: it silently overwrites the first
binding (the entry for node 0 ends up holding the second value). -/
theorem c6_rebind_counterexample :
    (bind_node_proxy (bind_node_proxy (waveEmitterClassInit Nat) 0 1) 0 2).node_values =
      [(0, [2])]
    ∧ cacheLookup
        (bind_node_proxy (bind_node_proxy (waveEmitterClassInit Nat) 0 1) 0 2).node_values
        0 ≠ some [1] :=
  ⟨rfl, by decide⟩

/-- Claim C6 as amended: a second `bind_node_proxy` for the same node
succeeds and replaces the first binding (an unchecked Python dict
write); nothing rejects the rebinding. -/
theorem c6_rebind_overwrites (α : Type) (cls : WaveEmitterClass α) (n : Nat)
    (p1 p2 : α) :
    cacheLookup (bind_node_proxy (bind_node_proxy cls n p1) n p2).node_values n =
      some [p2] := by
  simpa [bind_node_proxy] using
    cacheLookup_dictSet_self (dictSet cls.node_values n [p1]) n [p2]

/-- Claim C5: the gather/scatter offset synthesizer always takes the
general dynamic-instruction path — its guard `need_dynamic_offsets or
True` is identically true, so the constant-offset-vector branch is
never executed — and on every lane both branches denote the same
effective linear address: the constant branch adds the lane offset
`lin i - start_offset` to the non-zero start, the dynamic branch adds
the absolute lane address `lin i` to the all-zero start. -/
theorem c5_constant_branch_bypassed :
    (∀ ndo : Bool, need_dynamic_branch ndo = true
      ∧ select_offsets_path ndo = .dynamicPath)
    ∧ ∀ (lin : Nat → Int) (startIndices strides : List Int) (shape : List Nat)
        (i : Nat),
        gather_effective (compute_offset startIndices strides)
            (const_path_lane_offset lin startIndices strides i)
          = gather_effective (compute_offset (dynamic_path_start shape) strides)
              (lin i) := by
  constructor
  · intro ndo
    exact ⟨by simp [need_dynamic_branch], by simp [select_offsets_path, need_dynamic_branch]⟩
  · intro lin startIndices strides shape i
    rw [compute_offset_zeros]
    simp [gather_effective, const_path_lane_offset]

/-- Claim C8: shuffle lowering.  A non-constant offset or width fails
(`UnsupportedDynamicParameter`); an operand that is not a
single-element floating-point vector of at most 32 bits fails
(`UnsupportedShuffleShape`); otherwise the emitted sequence is:
scalarize, widen to 32 bits when narrower, shuffle by exclusive-or
lane offset with the given width, truncate back to the original
element type when it was widened, and re-broadcast to the original
vector shape. -/
theorem c8_shuffle_lowering (o w : Int) (ow : Option Int) (srcTy : SrcTy)
    (shape : List Nat) (t : ScalarTy) (fw : Nat)
    (hprod1 : shape.prod = 1) (hw32 : fw ≤ 32) :
    handle_shuffle none ow srcTy = .error .unsupportedDynamicParameter
    ∧ handle_shuffle ow none srcTy = .error .unsupportedDynamicParameter
    ∧ handle_shuffle (some o) (some w) (.scalarS t) = .error .unsupportedShuffleShape
    ∧ (∀ shape2 : List Nat, shape2.prod ≠ 1 →
        handle_shuffle (some o) (some w) (.vecS shape2 t) =
          .error .unsupportedShuffleShape)
    ∧ (t.isFloat = false →
        handle_shuffle (some o) (some w) (.vecS shape t) =
          .error .unsupportedShuffleShape)
    ∧ (∀ fw2 : Nat, 32 < fw2 →
        handle_shuffle (some o) (some w) (.vecS shape (.float fw2)) =
          .error .unsupportedShuffleShape)
    ∧ handle_shuffle (some o) (some w) (.vecS shape (.float fw)) =
        .ok ([ShOp.extractOp] ++ (if fw < 32 then [ShOp.extfTo32] else [])
          ++ [ShOp.shuffleXor o w]
          ++ (if fw < 32 then [ShOp.truncfTo (.float fw)] else [])
          ++ [ShOp.broadcastTo (.vecS shape (.float fw))]) := by
  refine ⟨?_, ?_, rfl, ?_, ?_, ?_, ?_⟩
  · cases ow <;> rfl
  · cases ow <;> rfl
  · intro shape2 h2
    simp [handle_shuffle, h2]
  · intro hfl
    simp [handle_shuffle, hprod1, hfl]
  · intro fw2 h32
    simp [handle_shuffle, hprod1, ScalarTy.isFloat, ScalarTy.width, Nat.not_le.mpr h32]
  · by_cases hlt : fw < 32
    · have : fw ≠ 32 := by omega
      simp [handle_shuffle, hprod1, ScalarTy.isFloat, ScalarTy.width, hw32, hlt, this]
    · have hfw : fw = 32 := by omega
      subst hfw
      simp [handle_shuffle, hprod1, ScalarTy.isFloat, ScalarTy.width]

/-- Witness for C8: a single-lane 16-bit float vector, offset 16,
width 32: extract, widen, xor-shuffle, truncate, re-broadcast. -/
theorem c8_shuffle_lowering_witness :
    ([1] : List Nat).prod = 1 ∧ (16 : Nat) ≤ 32
    ∧ handle_shuffle (some 16) (some 32) (.vecS [1] (.float 16)) =
        .ok [ShOp.extractOp, ShOp.extfTo32, ShOp.shuffleXor 16 32,
          ShOp.truncfTo (.float 16), ShOp.broadcastTo (.vecS [1] (.float 16))] := by
  have h := (c8_shuffle_lowering 16 32 none (.vecS [1] (.float 16)) [1]
    (.float 16) 16 (by decide) (by decide)).2.2.2.2.2.2
  exact ⟨by decide, by decide, h.trans (by norm_num)⟩

/-- Claim C7: lowering a reduction node emits exactly one counted loop
with lower bound 0, upper bound the node's statically known trip
count, and step 1, with one carried loop-state slot per initial value;
an absent trip count fails the lowering (`MissingTripCount`); on exit
the reduction node is bound to the loop's final carried-value results,
one per slot, and `get_result` with index `i` returns the loop's
`i`-th final result. -/
theorem c7_reduction_loop (c : Int) (inits : List IRV) (loopId : Nat)
    (loops : List ForOpRec) (cache : NodeCache IRV) (node node2 : Nat) (i : Nat)
    (hi : i < inits.length)
    (hfresh : ∀ f ∈ loops, f.loopId ≠ loopId) :
    handle_reduction none inits loopId loops cache node = .error .missingTripCount
    ∧ ∀ loops2 cache2,
        handle_reduction (some c) inits loopId loops cache node = .ok (loops2, cache2) →
          loops2.length = loops.length + 1
          ∧ loops2.getLast? = some ⟨loopId, 0, c, 1, inits.length⟩
          ∧ cacheLookup cache2 node =
              some ((List.range inits.length).map (IRV.forResult loopId))
          ∧ handle_get_result loops2 cache2 node i node2 =
              .ok (dictSet cache2 node2 [IRV.forResult loopId i]) := by
  refine ⟨rfl, ?_⟩
  intro loops2 cache2 h
  have hl : loops2 = loops ++ [⟨loopId, 0, c, 1, inits.length⟩] := by
    simpa [handle_reduction] using congrArg (fun r => match r with
      | Except.ok p => p.1 | Except.error _ => loops2) h.symm
  have hcc : cache2 = dictSet cache node
      ((List.range inits.length).map (IRV.forResult loopId)) := by
    simpa [handle_reduction] using congrArg (fun r => match r with
      | Except.ok p => p.2 | Except.error _ => cache2) h.symm
  subst hl
  subst hcc
  refine ⟨by simp, by simp, cacheLookup_dictSet_self _ _ _, ?_⟩
  obtain ⟨L, hL⟩ : ∃ L, inits.length = L + 1 := ⟨inits.length - 1, by omega⟩
  have hlookup : lookup_node_values
      (dictSet cache node ((List.range inits.length).map (IRV.forResult loopId))) node =
      (List.range inits.length).map (IRV.forResult loopId) := by
    simp [lookup_node_values, cacheLookup_dictSet_self]
  have hrange : (List.range inits.length).map (IRV.forResult loopId) =
      IRV.forResult loopId 0 ::
        (List.range L).map (fun j => IRV.forResult loopId (j + 1)) := by
    rw [hL, List.range_succ_eq_map]
    simp [Function.comp]
  have hfind : (loops ++ [(⟨loopId, 0, c, 1, inits.length⟩ : ForOpRec)]).find?
      (fun f => f.loopId = loopId) = some ⟨loopId, 0, c, 1, inits.length⟩ := by
    rw [List.find?_append]
    have h1 : loops.find? (fun f => f.loopId = loopId) = none :=
      List.find?_eq_none.mpr (fun x hx => by simpa using hfresh x hx)
    simp [h1, List.find?]
  rw [handle_get_result, hlookup, hrange]
  simp only [IRV.owner, hfind]
  simp [hi]

/-- Witness for C7: trip count 4, one carried slot; the loop record is
`(0, 4, 1)` with one iter arg, and `get_result` at index 0 binds the
loop's first result. -/
theorem c7_reduction_loop_witness :
    0 < ([IRV.resolved 5] : List IRV).length
    ∧ handle_reduction (some 4) [IRV.resolved 5] 0 [] [] 1 =
        .ok ([⟨0, 0, 4, 1, 1⟩], [(1, [IRV.forResult 0 0])])
    ∧ handle_get_result [⟨0, 0, 4, 1, 1⟩] [(1, [IRV.forResult 0 0])] 1 0 2 =
        .ok [(1, [IRV.forResult 0 0]), (2, [IRV.forResult 0 0])] := by
  have h := (c7_reduction_loop 4 [IRV.resolved 5] 0 [] [] 1 2 0 (by decide)
    (by simp)).2 [⟨0, 0, 4, 1, 1⟩] [(1, [IRV.forResult 0 0])] rfl
  exact ⟨by decide, rfl, h.2.2.2.trans rfl⟩

/-! ## Helper lemmas for the bounds-mask theorem (C4) -/

theorem zipWith_replicate_left_map (f : Int → Int → Int) (vs : List Int) (n : Nat)
    (x : Int) (h : vs.length = n) :
    List.zipWith f (List.replicate n x) vs = vs.map (fun e => f x e) := by
  subst h
  induction vs with
  | nil => rfl
  | cons a l ih => simp [List.replicate_succ, ih]

theorem zipWith_replicate_right_map (f : Int → Int → Int) (vs : List Int) (n : Nat)
    (x : Int) (h : vs.length = n) :
    List.zipWith f vs (List.replicate n x) = vs.map (fun e => f e x) := by
  subst h
  exact zipWith_replicate_right_eq_map f vs x

theorem zipWith_map_same {α : Type} (f : Int → Int → Int) (g h : α → Int)
    (l : List α) :
    List.zipWith f (l.map g) (l.map h) = l.map (fun x => f (g x) (h x)) := by
  induction l with
  | nil => rfl
  | cons a t ih => simp [ih]

/-- `arith.andi` on the 0/1 encoding of `i1` is conjunction. -/
theorem int_land_if (P Q : Prop) [Decidable P] [Decidable Q] :
    Int.land (if P then 1 else 0) (if Q then 1 else 0) =
      if P ∧ Q then (1 : Int) else 0 := by
  by_cases hP : P <;> by_cases hQ : Q <;> simp [hP, hQ] <;> decide

theorem maskLaneSpec_append (starts sizes : Nat → Int) (lastDim : Nat)
    (ds1 ds2 : List Nat) (i : Nat) :
    maskLaneSpec starts sizes lastDim (ds1 ++ ds2) i =
      (maskLaneSpec starts sizes lastDim ds1 i
        && maskLaneSpec starts sizes lastDim ds2 i) := by
  simp [maskLaneSpec, List.all_append]

/-- The lane predicate of a dimension other than the innermost one
does not depend on the lane. -/
theorem maskLaneSpec_lane_free (starts sizes : Nat → Int) (lastDim : Nat)
    (ds : List Nat) (hds : lastDim ∉ ds) (i : Nat) :
    maskLaneSpec starts sizes lastDim ds i =
      maskLaneSpec starts sizes lastDim ds 0 := by
  induction ds with
  | nil => rfl
  | cons d t ih =>
    have hd : d ≠ lastDim := fun h => hds (h ▸ List.mem_cons_self d t)
    have ht : lastDim ∉ t := fun h => hds (List.mem_cons_of_mem d h)
    have h2 := ih ht
    simp only [maskLaneSpec] at h2 ⊢
    simp only [List.all_cons, hd, if_false, if_neg hd, h2]

/-- A resolved symbol lowers to its environment binding. -/
theorem eval_sym (env : Nat → Option CVal) (d : Nat) (v : CVal)
    (hd : env d = some v) : evalE env (.sym d) = .ok (.c v) := by
  simp only [evalE, hd]

theorem eval_addE_two (env : Nat → Option CVal) (a1 a2 : IExpr) (v1 v2 : Val)
    (h1 : evalE env a1 = .ok v1) (h2 : evalE env a2 = .ok v2) :
    evalE env (.addE [a1, a2]) = applyFold vadd (groupRationals [v1, v2]) := by
  simp only [evalE, evalArgs, h1, h2, Except.bind, bind]

theorem eval_lt_node (env : Nat → Option CVal) (a b : IExpr) (x y : CVal)
    (ha : evalE env a = .ok (.c x)) (hb : evalE env b = .ok (.c y)) :
    evalE env (.ltE a b) =
      Except.bind (broadcastCV x y) (fun p => .ok (.c (cmpiSltCV p.1 p.2))) := by
  simp only [evalE, ha, hb, Except.bind, bind]

theorem eval_and_node (env : Nat → Option CVal) (a b : IExpr) (x y : CVal)
    (ha : evalE env a = .ok (.c x)) (hb : evalE env b = .ok (.c y)) :
    evalE env (.andE a b) =
      Except.bind (broadcastCV x y) (fun p => .ok (.c (andiCV p.1 p.2))) := by
  simp only [evalE, ha, hb, Except.bind, bind]

/-- A bound conjunct `start < size` on a non-innermost dimension
lowers to a scalar `i1` comparison. -/
theorem eval_lt_scalar (env : Nat → Option CVal) (e : IExpr) (d : Nat) (sv dv : Int)
    (he : evalE env e = .ok (.c (.s .index sv)))
    (hd : env d = some (.s .index dv)) :
    evalE env (.ltE e (.sym d)) = .ok (.c (.s .i1 (if sv < dv then 1 else 0))) := by
  rw [eval_lt_node env e (.sym d) (.s .index sv) (.s .index dv) he
    (eval_sym env d _ hd)]
  rfl

/-- The innermost bound conjunct `start + iota(k) < size` lowers to a
`vector<k x i1>` of per-lane comparisons. -/
theorem eval_lt_vec (env : Nat → Option CVal) (e : IExpr) (d : Nat) (k : Nat)
    (sv dv : Int)
    (he : evalE env e = .ok (.c (.s .index sv)))
    (hd : env d = some (.s .index dv)) :
    evalE env (.ltE (.addE [e, .iota k]) (.sym d)) =
      .ok (.c (.v .i1 ((List.range k).map
        (fun j : Nat => if sv + (j : Int) < dv then (1 : Int) else 0)))) := by
  have hiota : evalE env (.iota k) = .ok (.c (.v .index (iotaVec k))) := rfl
  have hadd0 : evalE env (.addE [e, .iota k]) =
      .ok (.c (.v .index (List.zipWith (fun a b => a + b) (iotaVec k)
        (List.replicate (iotaVec k).length sv)))) := by
    rw [eval_addE_two env e (.iota k) (.c (.s .index sv)) (.c (.v .index (iotaVec k)))
      he hiota]
    rfl
  have h3 : List.zipWith (fun a b => a + b) (iotaVec k)
      (List.replicate (iotaVec k).length sv) =
      (List.range k).map (fun j : Nat => sv + (j : Int)) := by
    rw [zipWith_replicate_right_eq_map]
    simp only [iotaVec, List.map_map]
    exact List.map_congr_left (fun j hj => by simp [Function.comp]; ring)
  rw [h3] at hadd0
  rw [eval_lt_node env _ (.sym d) _ (.s .index dv) hadd0 (eval_sym env d _ hd)]
  show Except.bind (Except.ok (_, CVal.v ElemTy.index (List.replicate _ dv))) _ = _
  simp only [Except.bind]
  have h5 : cmpiSltCV (.v .index ((List.range k).map (fun j : Nat => sv + (j : Int))))
      (.v .index (List.replicate
        ((List.range k).map (fun j : Nat => sv + (j : Int))).length dv)) =
      .v .i1 ((List.range k).map
        (fun j : Nat => if sv + (j : Int) < dv then (1 : Int) else 0)) := by
    simp only [cmpiSltCV, binCV]
    rw [zipWith_replicate_right_eq_map]
    simp [List.map_map, Function.comp]
  rw [h5]

/-- One `And` step of the bounds conjunction: combining the
accumulated value for dimensions `ds` with the conjunct of dimension
`d` (through `_broadcast` and `arith.andi`) yields the accumulated
value for `ds ++ [d]`. -/
theorem maskAcc_and (starts sizes : Nat → Int) (lastDim k : Nat) (ds : List Nat)
    (d : Nat) :
    Except.bind (broadcastCV (maskAccCVal starts sizes lastDim k ds)
        (maskAccCVal starts sizes lastDim k [d]))
      (fun p => Except.ok (Val.c (andiCV p.1 p.2))) =
      .ok (.c (maskAccCVal starts sizes lastDim k (ds ++ [d]))) := by
  by_cases hmem : lastDim ∈ ds <;> by_cases hd : d = lastDim
  · subst hd
    have hmem2 : d ∈ ds ++ [d] := by simp
    simp only [maskAccCVal, if_pos hmem, if_pos (List.mem_singleton_self d),
      if_pos hmem2]
    have hbc : broadcastCV
        (CVal.v .i1 ((List.range k).map
          (fun i : Nat => if maskLaneSpec starts sizes d ds i then (1:Int) else 0)))
        (CVal.v .i1 ((List.range k).map
          (fun i : Nat => if maskLaneSpec starts sizes d [d] i then (1:Int) else 0))) =
        .ok (CVal.v .i1 ((List.range k).map
          (fun i : Nat => if maskLaneSpec starts sizes d ds i then (1:Int) else 0)),
          CVal.v .i1 ((List.range k).map
          (fun i : Nat => if maskLaneSpec starts sizes d [d] i then (1:Int) else 0))) := by
      simp [broadcastCV, CVal.irType]
    rw [hbc]
    simp only [Except.bind]
    simp [andiCV, binCV, zipWith_map_same, int_land_if, maskLaneSpec_append,
      Bool.and_eq_true]
  · have hmem2 : lastDim ∈ ds ++ [d] := by simp [hmem]
    have hnd : lastDim ∉ [d] := by
      simp only [List.mem_singleton]
      exact fun h => hd h.symm
    simp only [maskAccCVal, if_pos hmem, if_neg hnd, if_pos hmem2]
    have hbc : broadcastCV
        (CVal.v .i1 ((List.range k).map
          (fun i : Nat => if maskLaneSpec starts sizes lastDim ds i then (1:Int) else 0)))
        (CVal.s .i1 (if maskLaneSpec starts sizes lastDim [d] 0 then (1:Int) else 0)) =
        .ok (CVal.v .i1 ((List.range k).map
          (fun i : Nat => if maskLaneSpec starts sizes lastDim ds i then (1:Int) else 0)),
          CVal.v .i1 (List.replicate ((List.range k).map
            (fun i : Nat => if maskLaneSpec starts sizes lastDim ds i then (1:Int) else 0)).length
            (if maskLaneSpec starts sizes lastDim [d] 0 then (1:Int) else 0))) := by
      simp [broadcastCV, CVal.irType, check_vec_scalar]
    rw [hbc]
    simp only [Except.bind]
    simp [andiCV, binCV, List.map_map,
      Function.comp, int_land_if, maskLaneSpec_append,
      maskLaneSpec_lane_free starts sizes lastDim [d] hnd, Bool.and_eq_true]
    rw [zipWith_replicate_right_map Int.land _ k _ (by simp)]
    simp [List.map_map, Function.comp, int_land_if]
  · subst hd
    have hmem2 : d ∈ ds ++ [d] := by simp
    simp only [maskAccCVal, if_neg hmem, if_pos (List.mem_singleton_self d),
      if_pos hmem2]
    have hbc : broadcastCV
        (CVal.s .i1 (if maskLaneSpec starts sizes d ds 0 then (1:Int) else 0))
        (CVal.v .i1 ((List.range k).map
          (fun i : Nat => if maskLaneSpec starts sizes d [d] i then (1:Int) else 0))) =
        .ok (CVal.v .i1 (List.replicate ((List.range k).map
            (fun i : Nat => if maskLaneSpec starts sizes d [d] i then (1:Int) else 0)).length
            (if maskLaneSpec starts sizes d ds 0 then (1:Int) else 0)),
          CVal.v .i1 ((List.range k).map
          (fun i : Nat => if maskLaneSpec starts sizes d [d] i then (1:Int) else 0))) := by
      simp [broadcastCV, CVal.irType, check_vec_scalar]
    rw [hbc]
    simp only [Except.bind]
    simp [andiCV, binCV, List.map_map,
      Function.comp, int_land_if, maskLaneSpec_append,
      maskLaneSpec_lane_free starts sizes d ds hmem, Bool.and_eq_true]
    rw [zipWith_replicate_left_map Int.land _ k _ (by simp)]
    simp [List.map_map, Function.comp, int_land_if]
  · have hnd : lastDim ∉ [d] := by
      simp only [List.mem_singleton]
      exact fun h => hd h.symm
    have hmem2 : lastDim ∉ ds ++ [d] := by
      simp only [List.mem_append]
      rintro (h | h)
      · exact hmem h
      · exact hnd h
    simp only [maskAccCVal, if_neg hmem, if_neg hnd, if_neg hmem2]
    have hbc : broadcastCV
        (CVal.s .i1 (if maskLaneSpec starts sizes lastDim ds 0 then (1:Int) else 0))
        (CVal.s .i1 (if maskLaneSpec starts sizes lastDim [d] 0 then (1:Int) else 0)) =
        .ok (CVal.s .i1 (if maskLaneSpec starts sizes lastDim ds 0 then (1:Int) else 0),
          CVal.s .i1 (if maskLaneSpec starts sizes lastDim [d] 0 then (1:Int) else 0)) := by
      simp [broadcastCV, CVal.irType]
    rw [hbc]
    simp only [Except.bind]
    simp [andiCV, binCV, int_land_if, maskLaneSpec_append, Bool.and_eq_true]

/-- Lowering the whole left fold of the bounds conjunction. -/
theorem mask_fold_eval (env : Nat → Option CVal) (starts sizes : Nat → Int)
    (lastDim k : Nat) (ce : Nat → IExpr) (b : Nat) (rest : List Nat)
    (hce : ∀ d ∈ b :: rest, evalE env (ce d) =
      .ok (.c (maskAccCVal starts sizes lastDim k [d]))) :
    evalE env ((rest.map ce).foldl (fun acc c => IExpr.andE acc c) (ce b)) =
      .ok (.c (maskAccCVal starts sizes lastDim k (b :: rest))) := by
  induction rest using List.reverseRecOn with
  | nil =>
    simpa using hce b (List.mem_cons_self b [])
  | append_singleton rest2 d ih =>
    have hce2 : ∀ e ∈ b :: rest2, evalE env (ce e) =
        .ok (.c (maskAccCVal starts sizes lastDim k [e])) := by
      intro e he
      refine hce e ?_
      rcases List.mem_cons.mp he with h | h
      · exact h ▸ List.mem_cons_self b _
      · exact List.mem_cons_of_mem b (List.mem_append_left [d] h)
    have hprev := ih hce2
    have hcd : evalE env (ce d) = .ok (.c (maskAccCVal starts sizes lastDim k [d])) :=
      hce d (List.mem_cons_of_mem b (List.mem_append_right rest2 (List.mem_singleton_self d)))
    rw [List.map_append, List.foldl_append]
    simp only [List.map_cons, List.map_nil, List.foldl_cons, List.foldl_nil]
    rw [eval_and_node env _ _ _ _ hprev hcd]
    have hfin := maskAcc_and starts sizes lastDim k (b :: rest2) d
    simpa [List.cons_append] using hfin

theorem lookupA_map_entry (l : List (Nat × IExpr)) (g : Nat → IExpr → IExpr)
    (d : Nat) :
    lookupA (l.map (fun p => (p.1, g p.1 p.2))) d =
      (l.find? (fun p => p.1 = d)).map (fun p => g p.1 p.2) := by
  induction l with
  | nil => rfl
  | cons p t ih =>
    by_cases h : p.1 = d
    · simp [lookupA, List.find?, h]
    · simpa [lookupA, List.find?, h] using ih

theorem find?_key_exists (l : List (Nat × IExpr)) (d : Nat)
    (h : d ∈ l.map Prod.fst) :
    ∃ p, l.find? (fun q => q.1 = d) = some p ∧ p ∈ l ∧ p.1 = d := by
  have h1 : ∃ x ∈ l, (fun q : Nat × IExpr => decide (q.1 = d)) x = true := by
    obtain ⟨p, hp, hpd⟩ := List.mem_map.mp h
    exact ⟨p, hp, by simp [hpd]⟩
  have h2 : (l.find? (fun q : Nat × IExpr => decide (q.1 = d))).isSome :=
    List.find?_isSome.mpr h1
  obtain ⟨p, hp⟩ := Option.isSome_iff_exists.mp h2
  refine ⟨p, hp, List.mem_of_find?_eq_some hp, ?_⟩
  have := List.find?_some hp
  simpa using this

theorem mapM_option_some (f : Nat → Option IExpr) (g : Nat → IExpr) (l : List Nat)
    (h : ∀ a ∈ l, f a = some (g a)) : l.mapM f = some (l.map g) := by
  induction l with
  | nil => rfl
  | cons a t ih =>
    have ha := h a (List.mem_cons_self a t)
    have ht : ∀ x ∈ t, f x = some (g x) := fun x hx => h x (List.mem_cons_of_mem a hx)
    rw [List.mapM_cons, ha, ih ht]
    rfl

theorem gen_of_evalE (env : Nat → Option CVal) (e : IExpr) (v : CVal)
    (h : evalE env e = .ok (.c v)) : gen_sympy_index env e = .ok v := by
  simp [gen_sympy_index, h, bind, Except.bind]

/-- Claim C4: for a read or write whose index has bounded dimensions
`b :: rest`, `_build_mask` produces the `vector<k x i1>` whose lane
`i` is the conjunction over every bounded dimension of
`start + lane_offset < declared_size` (lane offset `i` on the
innermost dimension, 0 elsewhere); for a bound on the innermost
dimension, lane `i` is true iff `start + i < size`; when no dimension
is bounded, no mask is constructed at all and the unmasked vectorized
load/store is selected. -/
theorem c4_bounds_mask (env : Nat → Option CVal) (index : List (Nat × IExpr))
    (k : Nat) (starts sizes : Nat → Int) (lastDim : Nat) (elast : IExpr)
    (b : Nat) (rest : List Nat) (isShared : Bool)
    (hlast : index.getLast? = some (lastDim, elast))
    (hstart : ∀ p ∈ index, evalE env p.2 = .ok (.c (.s .index (starts p.1))))
    (hsize : ∀ d ∈ b :: rest, env d = some (.s .index (sizes d)))
    (hbsub : ∀ d ∈ b :: rest, d ∈ index.map Prod.fst) :
    build_mask env index (some (b :: rest)) k =
      .ok (some (.v .i1 ((List.range k).map
        (fun i : Nat =>
          if maskLaneSpec starts sizes lastDim (b :: rest) i then (1:Int) else 0))))
    ∧ build_mask env index none k = .ok none
    ∧ memory_access_kind none isShared = .unmasked
    ∧ (∀ i : Nat, maskLaneSpec starts sizes lastDim [lastDim] i =
        decide (starts lastDim + (i : Int) < sizes lastDim)) := by
  refine ⟨?_, rfl, rfl, fun i => by simp [maskLaneSpec]⟩
  have hfun : (fun p : Nat × IExpr =>
      if p.1 = lastDim then (p.1, IExpr.addE [p.2, IExpr.iota k]) else p) =
      (fun p : Nat × IExpr =>
        (p.1, if p.1 = lastDim then IExpr.addE [p.2, IExpr.iota k] else p.2)) := by
    funext p
    by_cases h : p.1 = lastDim <;> simp [h]
  set newIndex := index.map (fun p : Nat × IExpr =>
    if p.1 = lastDim then (p.1, IExpr.addE [p.2, IExpr.iota k]) else p) with hnewIndex
  set ce : Nat → IExpr := fun d =>
    IExpr.ltE ((lookupA newIndex d).getD (.intC 0)) (.sym d) with hce_def
  have hlook : ∀ d ∈ b :: rest, (lookupA newIndex d).map
      (fun e => IExpr.ltE e (.sym d)) = some (ce d)
      ∧ evalE env (ce d) = .ok (.c (maskAccCVal starts sizes lastDim k [d])) := by
    intro d hd
    obtain ⟨p, hp, hpmem, hpd⟩ := find?_key_exists index d (hbsub d hd)
    have hlu : lookupA newIndex d =
        some (if p.1 = lastDim then IExpr.addE [p.2, IExpr.iota k] else p.2) := by
      rw [hnewIndex, hfun, lookupA_map_entry index
        (fun a e => if a = lastDim then IExpr.addE [e, IExpr.iota k] else e) d, hp]
      rfl
    have hce_d : ce d = IExpr.ltE
        (if p.1 = lastDim then IExpr.addE [p.2, IExpr.iota k] else p.2) (.sym d) := by
      rw [hce_def]
      simp only [hlu, Option.getD_some]
    refine ⟨by rw [hlu, hce_d]; rfl, ?_⟩
    have hsv : evalE env p.2 = .ok (.c (.s .index (starts d))) := by
      have := hstart p hpmem
      rwa [hpd] at this
    have hdv : env d = some (.s .index (sizes d)) := hsize d hd
    rw [hce_d]
    by_cases hdl : d = lastDim
    · rw [if_pos (hpd.trans hdl)]
      rw [eval_lt_vec env p.2 d k (starts d) (sizes d) hsv hdv]
      subst hdl
      simp [maskAccCVal, maskLaneSpec]
    · rw [if_neg (fun h => hdl (hpd.symm.trans h))]
      rw [eval_lt_scalar env p.2 d (starts d) (sizes d) hsv hdv]
      have hnmem : lastDim ∉ [d] := by
        simp only [List.mem_singleton]
        exact fun h => hdl h.symm
      have hdl2 : ¬lastDim = d := fun h => hdl h.symm
      simp [maskAccCVal, if_neg hnmem, maskLaneSpec, hdl, hdl2]
  have hconj_b : (lookupA newIndex b).map (fun e => IExpr.ltE e (.sym b)) =
      some (ce b) := (hlook b (List.mem_cons_self b rest)).1
  have hmapM : rest.mapM (fun d => (lookupA newIndex d).map
      (fun e => IExpr.ltE e (.sym d))) = some (rest.map ce) := by
    refine mapM_option_some _ ce rest (fun a ha => ?_)
    exact (hlook a (List.mem_cons_of_mem b ha)).1
  have hfold : evalE env ((rest.map ce).foldl (fun acc c => IExpr.andE acc c) (ce b)) =
      .ok (.c (maskAccCVal starts sizes lastDim k (b :: rest))) := by
    refine mask_fold_eval env starts sizes lastDim k ce b rest (fun d hd => ?_)
    exact (hlook d hd).2
  have hgen := gen_of_evalE env _ _ hfold
  simp only [build_mask, hlast]
  rw [hconj_b, hmapM]
  simp only [hgen, Except.bind, bind]
  by_cases hmem : lastDim ∈ b :: rest
  · have hval : maskAccCVal starts sizes lastDim k (b :: rest) =
        .v .i1 ((List.range k).map
          (fun i : Nat =>
            if maskLaneSpec starts sizes lastDim (b :: rest) i then (1:Int) else 0)) := by
      simp [maskAccCVal, hmem]
    rw [hval]
    have hty : (CVal.v ElemTy.i1 ((List.range k).map
        (fun i : Nat =>
          if maskLaneSpec starts sizes lastDim (b :: rest) i then (1:Int) else 0))).irType =
        IRTy0.vecT k .i1 := by
      simp [CVal.irType]
    simp [maskToVec, hty]
  · have hval : maskAccCVal starts sizes lastDim k (b :: rest) =
        .s .i1 (if maskLaneSpec starts sizes lastDim (b :: rest) 0 then (1:Int) else 0) := by
      simp [maskAccCVal, hmem]
    rw [hval]
    simp [maskToVec, CVal.irType]
    rw [show ((List.range k).map
        (fun i : Nat =>
          if maskLaneSpec starts sizes lastDim (b :: rest) i then (1:Int) else 0)) =
        (List.range k).map (fun _ =>
          if maskLaneSpec starts sizes lastDim (b :: rest) 0 then (1:Int) else 0) from
      List.map_congr_left (fun i hi => by
        rw [maskLaneSpec_lane_free starts sizes lastDim (b :: rest) hmem i])]
    simp [List.map_const']

/-- Witness for C4: a single bounded innermost dimension with four
lanes.  With `start = 3` and bound `B = 3` (start = B) every lane is
masked off; with `start = 0` and `B = 4 = k` every lane is live; with
no bounded dimension no mask is built. -/
theorem c4_bounds_mask_witness :
    build_mask (fun d => if d = 0 then some (CVal.s .index 3) else none)
        [(0, IExpr.intC 3)] (some [0]) 4 =
      .ok (some (.v .i1 [0, 0, 0, 0]))
    ∧ build_mask (fun d => if d = 0 then some (CVal.s .index 4) else none)
        [(0, IExpr.intC 0)] (some [0]) 4 =
      .ok (some (.v .i1 [1, 1, 1, 1]))
    ∧ build_mask (fun d => if d = 0 then some (CVal.s .index 3) else none)
        [(0, IExpr.intC 3)] none 4 = .ok none := by
  have hA := c4_bounds_mask (fun d => if d = 0 then some (CVal.s .index 3) else none)
    [(0, IExpr.intC 3)] 4 (fun _ => 3) (fun _ => 3) 0 (IExpr.intC 3) 0 [] false
    rfl
    (by
      intro p hp
      rw [List.mem_singleton.mp hp]
      rfl)
    (by
      intro d hd
      rw [List.mem_singleton.mp hd]
      rfl)
    (by decide)
  have hB := c4_bounds_mask (fun d => if d = 0 then some (CVal.s .index 4) else none)
    [(0, IExpr.intC 0)] 4 (fun _ => 0) (fun _ => 4) 0 (IExpr.intC 0) 0 [] false
    rfl
    (by
      intro p hp
      rw [List.mem_singleton.mp hp]
      rfl)
    (by
      intro d hd
      rw [List.mem_singleton.mp hd]
      rfl)
    (by decide)
  exact ⟨hA.1.trans rfl, hB.1.trans rfl, hA.2.1⟩
